import Mathlib

/-!
Shallow embedding of `leapCallQuote.py` (option-leverage calculator).

Modelling choices:
- Finite floating-point values are idealized as exact rationals (`ℚ`); the
  spec's numeric claims are stated at this real-valued level.
- The numpy special values produced by division by zero (`inf`, `-inf`,
  `nan`) are modelled explicitly by the sum type `NpVal`, with division
  following IEEE-754 semantics. Numpy elementwise division by zero emits a
  runtime warning and produces these values; it never raises.
- Option-chain rows (`calls['strike']`, `calls['ask']`) are a list of
  `OptionQuote` records; the parallel numpy arrays of the source are the
  corresponding projections.
- Expiration dates are modelled as rational timestamps measured in days
  (`datetime.strptime` is the identity in this model); Python's `min`
  over an empty sequence raises `ValueError`, modelled as `none`.
-/

namespace LeapCallQuote

/-- A numpy float value: a finite real (modelled exactly as a rational,
ignoring rounding) or one of the special values produced by division by
zero: `+inf`, `-inf`, `nan`. -/
inductive NpVal where
  | finite (q : ℚ)
  | inf
  | neginf
  | nan
deriving DecidableEq

/-- IEEE-754 (numpy) division on `NpVal`. Division of a finite nonzero
numerator by zero gives a signed infinity, `0/0` gives `nan`; `nan`
propagates; infinities divided by finite values keep a sign (a zero
denominator counts as `+0`). -/
def NpVal.div : NpVal → NpVal → NpVal
  | .nan, _ => .nan
  | _, .nan => .nan
  | .finite a, .finite b =>
      if b = 0 then
        if 0 < a then .inf else if a < 0 then .neginf else .nan
      else .finite (a / b)
  | .finite _, .inf => .finite 0
  | .finite _, .neginf => .finite 0
  | .inf, .finite b => if 0 ≤ b then .inf else .neginf
  | .neginf, .finite b => if 0 ≤ b then .neginf else .inf
  | .inf, .inf => .nan
  | .inf, .neginf => .nan
  | .neginf, .inf => .nan
  | .neginf, .neginf => .nan

/-- Whether a numpy value is an ordinary finite number (not `inf`, `-inf`
or `nan`). -/
def NpVal.isFinite : NpVal → Bool
  | .finite _ => true
  | _ => false

/-- One row of the option chain: a strike price and the quoted ask
premium (`calls['strike']`, `calls['ask']`). -/
structure OptionQuote where
  strike : ℚ
  ask : ℚ
deriving DecidableEq

/-- The per-row clipped intrinsic value at the target price:
`(future_price - strike).clip(min=0)` with
`future_price = stock_price * (1 + gain_pct / 100)`. -/
def intrinsic_gain (stock_price gain_pct strike : ℚ) : ℚ :=
  max (stock_price * (1 + gain_pct / 100) - strike) 0

/-- Embedding of `calculate_leverage_ratios(calls, stock_price, gain_pct)`:
elementwise numpy arithmetic over the parallel arrays
`strikes = calls['strike']` and `premiums = calls['ask']`, returning
`(strikes, leverage_ratios, adjusted_ratios, premiums)`. Divisions go
through `NpVal.div` because a zero premium (or `gain_pct = 0`) makes them
produce numpy special values; the remaining arithmetic only ever sees
finite operands and is done directly on `ℚ`. -/
def calculate_leverage_ratios (calls : List OptionQuote) (stock_price gain_pct : ℚ) :
    List ℚ × List NpVal × List NpVal × List ℚ :=
  let strikes := calls.map (fun c => c.strike)
  let premiums := calls.map (fun c => c.ask)
  let leverage_ratios := premiums.map (fun p => NpVal.div (.finite stock_price) (.finite p))
  let intrinsic_gains := strikes.map (fun s => intrinsic_gain stock_price gain_pct s)
  let premium_gains := (intrinsic_gains.zip premiums).map (fun g => g.1 - g.2)
  let adjusted_ratios := (premium_gains.zip premiums).map
    (fun g => NpVal.div (NpVal.div (.finite g.1) (.finite g.2)) (.finite (gain_pct / 100)))
  (strikes, leverage_ratios, adjusted_ratios, premiums)

/-- Python's `min(xs, key=...)` scan: a left fold that replaces the current
best only on a strict key decrease, so ties keep the earlier element. -/
def pyMin (key : ℚ → ℚ) (best : ℚ) : List ℚ → ℚ
  | [] => best
  | y :: ys => pyMin key (if key y < key best then y else best) ys

/-- Embedding of `get_default_expiration(expirations)`: the element of
`expirations` whose parsed date is closest to `today + 365` days, ties
resolved to the first encountered by the `min` scan. Dates are rational
timestamps in days. `min` of an empty sequence raises `ValueError`,
modelled as `none`; `today` is passed explicitly since the source reads
the clock. -/
def get_default_expiration (expirations : List ℚ) (today : ℚ) : Option ℚ :=
  let one_year_later := today + 365
  match expirations with
  | [] => none
  | x :: xs => some (pyMin (fun d => |d - one_year_later|) x xs)

/-- Numpy boolean-mask indexing `xs[mask]`: keep the entries of `xs` whose
mask entry is `True`, in order. -/
def mask_select {α : Type} : List Bool → List α → List α
  | true :: ms, x :: xs => x :: mask_select ms xs
  | false :: ms, _ :: xs => mask_select ms xs
  | _, _ => []

/-- The boolean mask `(strikes >= min_strike) & (strikes <= max_strike)`
computed in `main` from the strike-range slider, with
`min_strike = stock_price * (1 + min_range / 100)` and
`max_strike = stock_price * (1 + max_range / 100)`. -/
def strike_mask (strikes : List ℚ) (stock_price min_range max_range : ℚ) : List Bool :=
  let min_strike := stock_price * (1 + min_range / 100)
  let max_strike := stock_price * (1 + max_range / 100)
  strikes.map (fun s => decide (min_strike ≤ s) && decide (s ≤ max_strike))

/-- `main`'s filtering of one output array by the strike-range mask:
`xs[(strikes >= min_strike) & (strikes <= max_strike)]`. -/
def main_filter {α : Type} (strikes : List ℚ) (xs : List α)
    (stock_price min_range max_range : ℚ) : List α :=
  mask_select (strike_mask strikes stock_price min_range max_range) xs

/-- `filtered_strikes` in `main`: the strikes array filtered by its own
range mask. -/
def filtered_strikes (strikes : List ℚ) (stock_price min_range max_range : ℚ) : List ℚ :=
  main_filter strikes strikes stock_price min_range max_range

/-! Helper lemmas. -/

/-- The four output arrays of `calculate_leverage_ratios`, written as maps
over the input rows. -/
lemma clr_eq (calls : List OptionQuote) (sp gp : ℚ) :
    calculate_leverage_ratios calls sp gp =
      (calls.map (fun c => c.strike),
       calls.map (fun c => NpVal.div (.finite sp) (.finite c.ask)),
       calls.map (fun c => NpVal.div
         (NpVal.div (.finite (intrinsic_gain sp gp c.strike - c.ask)) (.finite c.ask))
         (.finite (gp / 100))),
       calls.map (fun c => c.ask)) := by
  simp [calculate_leverage_ratios, List.zip_map', List.map_map, Function.comp]

/-- A finite value divided by zero is `inf`, `-inf` or `nan`, never finite. -/
lemma finite_div_zero_not_finite (a : ℚ) :
    ((NpVal.finite a).div (.finite 0)).isFinite = false := by
  unfold NpVal.div
  simp only [if_pos rfl]
  split_ifs <;> rfl

/-- Any numpy value divided by zero is non-finite. -/
lemma div_by_zero_not_finite (x : NpVal) :
    (x.div (.finite 0)).isFinite = false := by
  cases x with
  | finite a => exact finite_div_zero_not_finite a
  | inf =>
    unfold NpVal.div
    simp [NpVal.isFinite]
  | neginf =>
    unfold NpVal.div
    simp [NpVal.isFinite]
  | nan => rfl

/-- Dividing a non-finite numpy value by a finite one stays non-finite. -/
lemma nonfinite_div_finite (x : NpVal) (b : ℚ) (hx : x.isFinite = false) :
    (x.div (.finite b)).isFinite = false := by
  cases x with
  | finite a => simp [NpVal.isFinite] at hx
  | inf =>
    rw [show NpVal.inf.div (.finite b) = if 0 ≤ b then NpVal.inf else NpVal.neginf from rfl]
    split_ifs <;> rfl
  | neginf =>
    rw [show NpVal.neginf.div (.finite b) = if 0 ≤ b then NpVal.neginf else NpVal.inf from rfl]
    split_ifs <;> rfl
  | nan => rfl

/-- The `min` scan never returns an element with a larger key than any
scanned element or the initial best. -/
lemma pyMin_le (key : ℚ → ℚ) (l : List ℚ) (best : ℚ) :
    key (pyMin key best l) ≤ key best ∧
      ∀ (j : ℕ) (y : ℚ), l[j]? = some y → key (pyMin key best l) ≤ key y := by
  induction l generalizing best with
  | nil => simp [pyMin]
  | cons y ys ih =>
    by_cases h : key y < key best
    · have heq : pyMin key best (y :: ys) = pyMin key y ys := by
        simp [pyMin, if_pos h]
      have hys := ih y
      rw [heq]
      refine ⟨hys.1.trans h.le, ?_⟩
      intro j z hz
      match j, hz with
      | 0, hz =>
        simp at hz
        subst hz
        exact hys.1
      | (j+1), hz =>
        simp at hz
        exact hys.2 j z hz
    · have heq : pyMin key best (y :: ys) = pyMin key best ys := by
        simp [pyMin, if_neg h]
      have hys := ih best
      rw [heq]
      refine ⟨hys.1, ?_⟩
      intro j z hz
      match j, hz with
      | 0, hz =>
        simp at hz
        subst hz
        exact hys.1.trans (not_lt.mp h)
      | (j+1), hz =>
        simp at hz
        exact hys.2 j z hz

/-- The `min` scan returns the initial best, or the first element of the
scanned list that strictly improves on the best and on everything before
it. -/
lemma pyMin_first (key : ℚ → ℚ) (l : List ℚ) (best : ℚ) :
    pyMin key best l = best ∨
      ∃ i : ℕ, l[i]? = some (pyMin key best l) ∧ key (pyMin key best l) < key best ∧
        ∀ j : ℕ, j < i → ∀ y : ℚ, l[j]? = some y → key (pyMin key best l) < key y := by
  induction l generalizing best with
  | nil => left; simp [pyMin]
  | cons y ys ih =>
    by_cases h : key y < key best
    · have heq : pyMin key best (y :: ys) = pyMin key y ys := by
        simp [pyMin, if_pos h]
      rcases ih y with h1 | ⟨i, hi, hlt, hfirst⟩
      · right
        refine ⟨0, ?_, ?_, ?_⟩
        · simp [heq, h1]
        · rw [heq, h1]; exact h
        · intro j hj; omega
      · right
        refine ⟨i + 1, ?_, ?_, ?_⟩
        · simp [heq, hi]
        · rw [heq]; exact hlt.trans h
        · intro j hj z hz
          match j, hz with
          | 0, hz =>
            simp at hz
            subst hz
            rw [heq]; exact hlt
          | (j+1), hz =>
            simp at hz
            rw [heq]
            exact hfirst j (by omega) z hz
    · have heq : pyMin key best (y :: ys) = pyMin key best ys := by
        simp [pyMin, if_neg h]
      rcases ih best with h1 | ⟨i, hi, hlt, hfirst⟩
      · left; rw [heq, h1]
      · right
        refine ⟨i + 1, ?_, ?_, ?_⟩
        · simp [heq, hi]
        · rw [heq]; exact hlt
        · intro j hj z hz
          match j, hz with
          | 0, hz =>
            simp at hz
            subst hz
            rw [heq]
            exact hlt.trans_le (not_lt.mp h)
          | (j+1), hz =>
            simp at hz
            rw [heq]
            exact hfirst j (by omega) z hz

/-- Boolean-mask selection of the empty array is empty. -/
lemma mask_select_nil {α : Type} (m : List Bool) :
    mask_select m ([] : List α) = [] := by
  cases m with
  | nil => rfl
  | cons b ms => cases b <;> rfl

/-- Selection by an empty mask is empty. -/
lemma mask_select_nil_mask {α : Type} (xs : List α) :
    mask_select [] xs = [] := by
  cases xs <;> rfl

/-- Selecting an array by the mask computed pointwise from the array itself
is filtering by the same predicate. -/
lemma mask_select_map_filter {α : Type} (f : α → Bool) (xs : List α) :
    mask_select (xs.map f) xs = xs.filter f := by
  induction xs with
  | nil => rfl
  | cons x xs ih =>
    cases h : f x <;> simp [mask_select, List.filter_cons, h, ih]

/-- Mask selection commutes with zipping two arrays: the same mask picks
the same positions from both. -/
lemma mask_select_zip {α β : Type} (m : List Bool) (xs : List α) (ys : List β) :
    mask_select m (xs.zip ys) = (mask_select m xs).zip (mask_select m ys) := by
  induction m generalizing xs ys with
  | nil => simp [mask_select_nil_mask]
  | cons b ms ih =>
    cases xs with
    | nil => simp [mask_select_nil]
    | cons x xs' =>
      cases ys with
      | nil => simp [mask_select_nil]
      | cons y ys' =>
        cases b
        · rw [List.zip_cons_cons]
          show mask_select ms (xs'.zip ys') = (mask_select ms xs').zip (mask_select ms ys')
          exact ih xs' ys'
        · rw [List.zip_cons_cons]
          show (x, y) :: mask_select ms (xs'.zip ys')
              = ((x :: mask_select ms xs').zip (y :: mask_select ms ys'))
          rw [List.zip_cons_cons, ih]

/-- One mask applied to two arrays of equal length selects equally many
entries from each. -/
lemma mask_select_length {α β : Type} (m : List Bool) (xs : List α) (ys : List β)
    (h : xs.length = ys.length) :
    (mask_select m xs).length = (mask_select m ys).length := by
  induction m generalizing xs ys with
  | nil => simp [mask_select_nil_mask]
  | cons b ms ih =>
    cases xs with
    | nil =>
      cases ys with
      | nil => simp [mask_select_nil]
      | cons y ys' => simp at h
    | cons x xs' =>
      cases ys with
      | nil => simp at h
      | cons y ys' =>
        simp only [List.length_cons, Nat.succ_inj] at h
        cases b <;> simp [mask_select, ih xs' ys' h]

/-- Mask selection yields a sub-sequence of the array. -/
lemma mask_select_sublist {α : Type} (m : List Bool) (xs : List α) :
    (mask_select m xs).Sublist xs := by
  induction m generalizing xs with
  | nil => simp [mask_select_nil_mask]
  | cons b ms ih =>
    cases xs with
    | nil => simp [mask_select_nil]
    | cons x xs' =>
      cases b
      · exact (ih xs').cons x
      · exact (ih xs').cons₂ x

/-! Claim theorems. -/

/-- C1: for every quote sequence, positive `currentPrice` and nonzero
`targetPct`, each row with a positive premium has
`leverageRatio = currentPrice / premium` and
`adjustedLeverageRatio = ((intrinsicGain - premium) / premium) / (targetPct / 100)`,
with `intrinsicGain = max(currentPrice * (1 + targetPct / 100) - strike, 0)`. -/
theorem leverage_formula_per_row (calls : List OptionQuote) (sp gp : ℚ)
    (hsp : 0 < sp) (hgp : gp ≠ 0) (i : ℕ) (c : OptionQuote)
    (hc : calls[i]? = some c) (hask : 0 < c.ask) :
    (calculate_leverage_ratios calls sp gp).2.1[i]? = some (.finite (sp / c.ask)) ∧
    (calculate_leverage_ratios calls sp gp).2.2.1[i]?
      = some (.finite (((intrinsic_gain sp gp c.strike - c.ask) / c.ask) / (gp / 100))) := by
  rw [clr_eq]
  have h1 : c.ask ≠ 0 := ne_of_gt hask
  have h2 : (gp / 100 : ℚ) ≠ 0 := div_ne_zero hgp (by norm_num)
  constructor
  · simp [List.getElem?_map, hc, NpVal.div, h1]
  · simp [List.getElem?_map, hc, NpVal.div, h1, h2]

/-- C1 witness: the spec's scenario `[(90, 12), (100, 5), (110, 1)]`,
`currentPrice = 100`, `targetPct = 20`: row 1 has leverage ratio `100/12`
and adjusted ratio `7.5`; row 3 has adjusted ratio `45`. -/
theorem leverage_formula_per_row_witness :
    (calculate_leverage_ratios [⟨90, 12⟩, ⟨100, 5⟩, ⟨110, 1⟩] 100 20).2.1[0]?
        = some (.finite (100 / 12)) ∧
    (calculate_leverage_ratios [⟨90, 12⟩, ⟨100, 5⟩, ⟨110, 1⟩] 100 20).2.2.1[0]?
        = some (.finite (15 / 2)) ∧
    (calculate_leverage_ratios [⟨90, 12⟩, ⟨100, 5⟩, ⟨110, 1⟩] 100 20).2.2.1[2]?
        = some (.finite 45) := by
  have h0 := leverage_formula_per_row [⟨90, 12⟩, ⟨100, 5⟩, ⟨110, 1⟩] 100 20
    (by norm_num) (by norm_num) 0 ⟨90, 12⟩ rfl (by norm_num)
  have h2 := leverage_formula_per_row [⟨90, 12⟩, ⟨100, 5⟩, ⟨110, 1⟩] 100 20
    (by norm_num) (by norm_num) 2 ⟨110, 1⟩ rfl (by norm_num)
  refine ⟨h0.1, h0.2.trans ?_, h2.2.trans ?_⟩
  · norm_num [intrinsic_gain]
  · norm_num [intrinsic_gain]

/-- C2 counterexample: on the quote `(strike 100, ask 0)` with
`currentPrice = 100` and `targetPct = 20`, the code propagates the plain
infinite value `inf` for both the leverage ratio and the adjusted ratio,
so no defined `UndefinedRatio` marker is produced (the claim's "never an
infinite value propagated as a plain number" fails). -/
theorem zero_premium_counterexample :
    (calculate_leverage_ratios [⟨100, 0⟩] 100 20).2.1 = [NpVal.inf] ∧
    (calculate_leverage_ratios [⟨100, 0⟩] 100 20).2.2.1 = [NpVal.inf] ∧
    NpVal.inf.isFinite = false := by
  refine ⟨?_, ?_, rfl⟩
  · rw [clr_eq]; norm_num [NpVal.div, intrinsic_gain]
  · rw [clr_eq]; norm_num [NpVal.div, intrinsic_gain]

/-- C2 amended: a quote with `ask = 0` yields the plain non-finite float
`inf` as its leverage ratio (for positive `currentPrice`) and a non-finite
float (`inf`, `-inf` or `nan`) as its adjusted ratio — no exception is
raised and no `UndefinedRatio` marker exists — while every row with a
nonzero premium (and nonzero `targetPct`) still gets finite values. -/
theorem zero_premium_nonfinite (calls : List OptionQuote) (sp gp : ℚ)
    (i : ℕ) (c : OptionQuote) (hc : calls[i]? = some c) (hask : c.ask = 0)
    (hsp : 0 < sp) :
    (calculate_leverage_ratios calls sp gp).2.1[i]? = some NpVal.inf ∧
    (∃ v, (calculate_leverage_ratios calls sp gp).2.2.1[i]? = some v ∧
      v.isFinite = false) ∧
    (∀ (j : ℕ) (d : OptionQuote), calls[j]? = some d → d.ask ≠ 0 → gp ≠ 0 →
      (∃ v, (calculate_leverage_ratios calls sp gp).2.1[j]? = some v ∧
        v.isFinite = true) ∧
      (∃ w, (calculate_leverage_ratios calls sp gp).2.2.1[j]? = some w ∧
        w.isFinite = true)) := by
  refine ⟨?_, ?_, ?_⟩
  · rw [clr_eq]
    simp [List.getElem?_map, hc, hask, NpVal.div, hsp]
  · refine ⟨((NpVal.finite (intrinsic_gain sp gp c.strike - c.ask)).div
      (.finite c.ask)).div (.finite (gp / 100)), ?_, ?_⟩
    · rw [clr_eq]
      simp [List.getElem?_map, hc]
    · rw [hask]
      exact nonfinite_div_finite _ _ (div_by_zero_not_finite _)
  · intro j d hd hdask hgp
    have h2 : (gp / 100 : ℚ) ≠ 0 := div_ne_zero hgp (by norm_num)
    constructor
    · refine ⟨(NpVal.finite sp).div (.finite d.ask), ?_, ?_⟩
      · rw [clr_eq]; simp [List.getElem?_map, hd]
      · simp [NpVal.div, hdask, NpVal.isFinite]
    · refine ⟨((NpVal.finite (intrinsic_gain sp gp d.strike - d.ask)).div
        (.finite d.ask)).div (.finite (gp / 100)), ?_, ?_⟩
      · rw [clr_eq]; simp [List.getElem?_map, hd]
      · simp [NpVal.div, hdask, h2, NpVal.isFinite]

/-- C2 amended witness: on `[(100, 0), (90, 12)]` with `currentPrice = 100`,
`targetPct = 20`, row 0 (zero ask) yields `inf` and a non-finite adjusted
ratio while row 1 stays finite. -/
theorem zero_premium_nonfinite_witness :
    (calculate_leverage_ratios [⟨100, 0⟩, ⟨90, 12⟩] 100 20).2.1[0]? = some NpVal.inf ∧
    (∃ v, (calculate_leverage_ratios [⟨100, 0⟩, ⟨90, 12⟩] 100 20).2.2.1[0]? = some v ∧
      v.isFinite = false) ∧
    (∀ (j : ℕ) (d : OptionQuote), ([⟨100, 0⟩, ⟨90, 12⟩] : List OptionQuote)[j]? = some d →
      d.ask ≠ 0 → (20 : ℚ) ≠ 0 →
      (∃ v, (calculate_leverage_ratios [⟨100, 0⟩, ⟨90, 12⟩] 100 20).2.1[j]? = some v ∧
        v.isFinite = true) ∧
      (∃ w, (calculate_leverage_ratios [⟨100, 0⟩, ⟨90, 12⟩] 100 20).2.2.1[j]? = some w ∧
        w.isFinite = true)) :=
  zero_premium_nonfinite [⟨100, 0⟩, ⟨90, 12⟩] 100 20 0 ⟨100, 0⟩ rfl rfl (by norm_num)

/-- C3 counterexample: with `targetPct = 0` on the single quote
`(strike 90, ask 12)` and `currentPrice = 100`, the adjusted ratio is the
plain non-finite float `-inf`, produced by the unguarded division by
`targetPct / 100 = 0`, not an `UndefinedRatio` marker. -/
theorem zero_target_counterexample :
    (calculate_leverage_ratios [⟨90, 12⟩] 100 0).2.2.1 = [NpVal.neginf] ∧
    NpVal.neginf.isFinite = false := by
  refine ⟨?_, rfl⟩
  rw [clr_eq]; norm_num [NpVal.div, intrinsic_gain]

/-- C3 amended: with `targetPct = 0`, every row's adjusted leverage ratio
is a non-finite float (`inf`, `-inf` or `nan`) arising from the unguarded
division by `targetPct / 100 = 0`; there is no explicit guard and no
`UndefinedRatio` marker. -/
theorem zero_target_nonfinite (calls : List OptionQuote) (sp gp : ℚ) (hgp : gp = 0)
    (i : ℕ) (v : NpVal)
    (hv : (calculate_leverage_ratios calls sp gp).2.2.1[i]? = some v) :
    v.isFinite = false := by
  subst hgp
  rw [clr_eq] at hv
  simp only [List.getElem?_map, Option.map_eq_some'] at hv
  obtain ⟨c, hc, hval⟩ := hv
  subst hval
  have h0 : (0 : ℚ) / 100 = 0 := by norm_num
  rw [h0]
  exact div_by_zero_not_finite _

/-- C3 amended witness: the concrete row above, settled through the
amended theorem. -/
theorem zero_target_nonfinite_witness :
    (calculate_leverage_ratios [⟨90, 12⟩] 100 0).2.2.1[0]? = some NpVal.neginf ∧
    NpVal.neginf.isFinite = false :=
  ⟨by rw [clr_eq]; norm_num [NpVal.div, intrinsic_gain],
   zero_target_nonfinite [⟨90, 12⟩] 100 0 rfl 0 NpVal.neginf
     (by rw [clr_eq]; norm_num [NpVal.div, intrinsic_gain])⟩

/-- C4: all four output sequences of `calculate_leverage_ratios` have the
length of the input sequence, and the output strike at every index is the
input strike at that index (order preserved, no rows dropped). -/
theorem length_order_preservation (calls : List OptionQuote) (sp gp : ℚ) :
    (calculate_leverage_ratios calls sp gp).1.length = calls.length ∧
    (calculate_leverage_ratios calls sp gp).2.1.length = calls.length ∧
    (calculate_leverage_ratios calls sp gp).2.2.1.length = calls.length ∧
    (calculate_leverage_ratios calls sp gp).2.2.2.length = calls.length ∧
    ∀ i : ℕ, (calculate_leverage_ratios calls sp gp).1[i]?
      = (calls[i]?).map (fun c => c.strike) := by
  rw [clr_eq]
  exact ⟨by simp, by simp, by simp, by simp, fun i => by simp [List.getElem?_map]⟩

/-- C6: `get_default_expiration` fails (Python's `min` raises on an empty
sequence, modelled as `none`) exactly when the list of expiration dates is
empty. -/
theorem default_expiration_none_iff_empty (expirations : List ℚ) (today : ℚ) :
    get_default_expiration expirations today = none ↔ expirations = [] := by
  cases expirations <;> simp [get_default_expiration]

/-- C7 counterexample: with the non-positive `currentPrice = -50`, the
code raises no error at the engine boundary; it computes and returns a
full result (negative ratios included) for the quote `(100, 5)` at
`targetPct = 20`. -/
theorem nonpositive_price_counterexample :
    calculate_leverage_ratios [⟨100, 5⟩] (-50) 20
      = ([100], [.finite (-10)], [.finite (-5)], [5]) := by
  rw [clr_eq]; norm_num [NpVal.div, intrinsic_gain]

/-- C7 amended: `calculate_leverage_ratios` performs no validation of
`currentPrice`: for any non-positive price it still returns a full
four-sequence result of the input length, with each nonzero-premium row's
leverage ratio computed as `currentPrice / premium`. -/
theorem nonpositive_price_proceeds (calls : List OptionQuote) (sp gp : ℚ)
    (hsp : sp ≤ 0) :
    (calculate_leverage_ratios calls sp gp).1.length = calls.length ∧
    (calculate_leverage_ratios calls sp gp).2.1.length = calls.length ∧
    (calculate_leverage_ratios calls sp gp).2.2.1.length = calls.length ∧
    (calculate_leverage_ratios calls sp gp).2.2.2.length = calls.length ∧
    ∀ (i : ℕ) (c : OptionQuote), calls[i]? = some c → c.ask ≠ 0 →
      (calculate_leverage_ratios calls sp gp).2.1[i]? = some (.finite (sp / c.ask)) := by
  rw [clr_eq]
  refine ⟨by simp, by simp, by simp, by simp, ?_⟩
  intro i c hc hask
  simp [List.getElem?_map, hc, NpVal.div, hask]

/-- C7 amended witness: the concrete scenario of the counterexample,
settled through the amended theorem. -/
theorem nonpositive_price_proceeds_witness :
    (calculate_leverage_ratios [⟨100, 5⟩] (-50) 20).2.1[0]? = some (.finite (-10)) ∧
    (calculate_leverage_ratios [⟨100, 5⟩] (-50) 20).1.length = 1 := by
  have h := nonpositive_price_proceeds [⟨100, 5⟩] (-50) 20 (by norm_num)
  refine ⟨(h.2.2.2.2 0 ⟨100, 5⟩ rfl (by norm_num)).trans ?_, h.1⟩
  norm_num

/-- C9: the clipped intrinsic gain used by `calculate_leverage_ratios` is
never negative, and is exactly zero whenever the strike is at least the
target price `currentPrice * (1 + targetPct / 100)` — for every value of
`targetPct`, negative ones included. -/
theorem intrinsic_gain_clip (sp gp s : ℚ) :
    0 ≤ intrinsic_gain sp gp s ∧
      (sp * (1 + gp / 100) ≤ s → intrinsic_gain sp gp s = 0) := by
  constructor
  · exact le_max_right _ _
  · intro h
    unfold intrinsic_gain
    rw [max_eq_right (by linarith : sp * (1 + gp / 100) - s ≤ 0)]

/-- C9 witness: strike `130` is above the target price `120` of the
scenario `currentPrice = 100`, `targetPct = 20`, so its intrinsic gain is
zero and non-negative. -/
theorem intrinsic_gain_clip_witness :
    0 ≤ intrinsic_gain 100 20 130 ∧ intrinsic_gain 100 20 130 = 0 :=
  ⟨(intrinsic_gain_clip 100 20 130).1,
   (intrinsic_gain_clip 100 20 130).2 (by norm_num)⟩

/-- C5: on a non-empty list, `get_default_expiration` returns an element
of the list minimizing the absolute difference to `today + 365`, and among
equally close dates it returns the one encountered first in input order
(the returned element's index is at most the index of every date that is
at least as close to the target). -/
theorem get_default_expiration_spec (expirations : List ℚ) (today : ℚ)
    (hne : expirations ≠ []) :
    ∃ (r : ℚ) (i : ℕ),
      get_default_expiration expirations today = some r ∧
      expirations[i]? = some r ∧
      (∀ (j : ℕ) (d : ℚ), expirations[j]? = some d →
        |r - (today + 365)| ≤ |d - (today + 365)|) ∧
      (∀ (j : ℕ) (d : ℚ), expirations[j]? = some d →
        |d - (today + 365)| ≤ |r - (today + 365)| → i ≤ j) := by
  match expirations, hne with
  | x :: xs, _ =>
    have hle := pyMin_le (fun d => |d - (today + 365)|) xs x
    have hfirst := pyMin_first (fun d => |d - (today + 365)|) xs x
    have hval : get_default_expiration (x :: xs) today
        = some (pyMin (fun d => |d - (today + 365)|) x xs) := by
      simp [get_default_expiration]
    rcases hfirst with h1 | ⟨i0, hi0, hlt, hf⟩
    · refine ⟨_, 0, hval, ?_, ?_, ?_⟩
      · simp [h1]
      · intro j d hj
        match j, hj with
        | 0, hj =>
          simp at hj; subst hj
          exact hle.1
        | (j+1), hj =>
          simp at hj
          exact hle.2 j d hj
      · intro j d _ _; omega
    · refine ⟨_, i0 + 1, hval, ?_, ?_, ?_⟩
      · simpa using hi0
      · intro j d hj
        match j, hj with
        | 0, hj =>
          simp at hj; subst hj
          exact hle.1
        | (j+1), hj =>
          simp at hj
          exact hle.2 j d hj
      · intro j d hj hd
        match j, hj with
        | 0, hj =>
          simp at hj; subst hj
          exact absurd hd (not_le.mpr hlt)
        | (j+1), hj =>
          simp at hj
          by_contra hc
          have hji : j < i0 := by omega
          exact absurd hd (not_le.mpr (hf j hji d hj))

/-- C5 witness: dates `{0, 370}` (days) with reference date `9`: the
target is `374` and the nearer date `370` is returned. -/
theorem get_default_expiration_spec_witness :
    get_default_expiration [0, 370] 9 = some 370 ∧
    (∃ (r : ℚ) (i : ℕ),
      get_default_expiration [0, 370] 9 = some r ∧
      ([0, 370] : List ℚ)[i]? = some r ∧
      (∀ (j : ℕ) (d : ℚ), ([0, 370] : List ℚ)[j]? = some d →
        |r - (9 + 365)| ≤ |d - (9 + 365)|) ∧
      (∀ (j : ℕ) (d : ℚ), ([0, 370] : List ℚ)[j]? = some d →
        |d - (9 + 365)| ≤ |r - (9 + 365)| → i ≤ j)) := by
  constructor
  · norm_num [get_default_expiration, pyMin, abs]
  · exact get_default_expiration_spec [0, 370] 9 (by simp)

/-- C8: for positive `currentPrice`, `main`'s strike filtering retains
exactly the strikes `s` with
`currentPrice * (1 + lowPct / 100) ≤ s ≤ currentPrice * (1 + highPct / 100)`
(inclusive, order preserved), the result is a sub-sequence of the input,
and `lowPct > highPct` yields the empty result without an error. -/
theorem strike_filter_spec (strikes : List ℚ) (sp minr maxr : ℚ) (hsp : 0 < sp) :
    filtered_strikes strikes sp minr maxr
      = strikes.filter (fun s =>
          decide (sp * (1 + minr / 100) ≤ s) && decide (s ≤ sp * (1 + maxr / 100))) ∧
    (filtered_strikes strikes sp minr maxr).Sublist strikes ∧
    (maxr < minr → filtered_strikes strikes sp minr maxr = []) := by
  have hfe : filtered_strikes strikes sp minr maxr
      = strikes.filter (fun s =>
          decide (sp * (1 + minr / 100) ≤ s) && decide (s ≤ sp * (1 + maxr / 100))) := by
    simp only [filtered_strikes, main_filter, strike_mask]
    exact mask_select_map_filter _ _
  refine ⟨hfe, ?_, ?_⟩
  · rw [hfe]
    exact List.filter_sublist _
  · intro hlt
    rw [hfe]
    rw [List.filter_eq_nil_iff]
    intro s _
    simp only [Bool.and_eq_true, decide_eq_true_eq, not_and, not_le]
    intro h1
    have hmono : sp * (1 + maxr / 100) < sp * (1 + minr / 100) := by
      apply mul_lt_mul_of_pos_left _ hsp
      linarith
    linarith

/-- C8 witness: `currentPrice = 100`, `lowPct = 10 > highPct = -10` keeps
no strikes: the filter applied to `[95, 100, 105]` is empty. -/
theorem strike_filter_spec_witness :
    filtered_strikes [95, 100, 105] 100 10 (-10) = [] :=
  (strike_filter_spec [95, 100, 105] 100 10 (-10) (by norm_num)).2.2 (by norm_num)

/-- C10: the four engine output arrays filtered by the identical
strike-range mask keep equal lengths and stay index-aligned: the mask
selects the same index set from each, so filtering commutes with zipping
the strikes with each of the other three arrays. -/
theorem filtered_series_aligned (calls : List OptionQuote) (sp gp minr maxr : ℚ) :
    (main_filter (calculate_leverage_ratios calls sp gp).1
        (calculate_leverage_ratios calls sp gp).1 sp minr maxr).length
      = (main_filter (calculate_leverage_ratios calls sp gp).1
        (calculate_leverage_ratios calls sp gp).2.1 sp minr maxr).length ∧
    (main_filter (calculate_leverage_ratios calls sp gp).1
        (calculate_leverage_ratios calls sp gp).2.1 sp minr maxr).length
      = (main_filter (calculate_leverage_ratios calls sp gp).1
        (calculate_leverage_ratios calls sp gp).2.2.1 sp minr maxr).length ∧
    (main_filter (calculate_leverage_ratios calls sp gp).1
        (calculate_leverage_ratios calls sp gp).2.2.1 sp minr maxr).length
      = (main_filter (calculate_leverage_ratios calls sp gp).1
        (calculate_leverage_ratios calls sp gp).2.2.2 sp minr maxr).length ∧
    main_filter (calculate_leverage_ratios calls sp gp).1
        ((calculate_leverage_ratios calls sp gp).1.zip
          (calculate_leverage_ratios calls sp gp).2.1) sp minr maxr
      = (main_filter (calculate_leverage_ratios calls sp gp).1
          (calculate_leverage_ratios calls sp gp).1 sp minr maxr).zip
        (main_filter (calculate_leverage_ratios calls sp gp).1
          (calculate_leverage_ratios calls sp gp).2.1 sp minr maxr) ∧
    main_filter (calculate_leverage_ratios calls sp gp).1
        ((calculate_leverage_ratios calls sp gp).1.zip
          (calculate_leverage_ratios calls sp gp).2.2.1) sp minr maxr
      = (main_filter (calculate_leverage_ratios calls sp gp).1
          (calculate_leverage_ratios calls sp gp).1 sp minr maxr).zip
        (main_filter (calculate_leverage_ratios calls sp gp).1
          (calculate_leverage_ratios calls sp gp).2.2.1 sp minr maxr) ∧
    main_filter (calculate_leverage_ratios calls sp gp).1
        ((calculate_leverage_ratios calls sp gp).1.zip
          (calculate_leverage_ratios calls sp gp).2.2.2) sp minr maxr
      = (main_filter (calculate_leverage_ratios calls sp gp).1
          (calculate_leverage_ratios calls sp gp).1 sp minr maxr).zip
        (main_filter (calculate_leverage_ratios calls sp gp).1
          (calculate_leverage_ratios calls sp gp).2.2.2 sp minr maxr) := by
  have hs : (calculate_leverage_ratios calls sp gp).1.length = calls.length := by
    rw [clr_eq]; simp
  have hlr : (calculate_leverage_ratios calls sp gp).2.1.length = calls.length := by
    rw [clr_eq]; simp
  have har : (calculate_leverage_ratios calls sp gp).2.2.1.length = calls.length := by
    rw [clr_eq]; simp
  have hpr : (calculate_leverage_ratios calls sp gp).2.2.2.length = calls.length := by
    rw [clr_eq]; simp
  simp only [main_filter]
  exact ⟨mask_select_length _ _ _ (hs.trans hlr.symm),
    mask_select_length _ _ _ (hlr.trans har.symm),
    mask_select_length _ _ _ (har.trans hpr.symm),
    mask_select_zip _ _ _, mask_select_zip _ _ _, mask_select_zip _ _ _⟩

end LeapCallQuote
